/-
  Verification of the consensus worker core (src/consensus/src/consensus_worker.rs).

  The worker is shallowly embedded: slots are pairs of naturals with an explicit
  u64 overflow bound, collaborators (BlockGraph, Pool, Protocol, Storage) are
  abstract oracles supplied per event, and each handler is a pure function from
  worker state and event to a successor state together with a trace of effect
  calls made on the collaborators.  Machine integers are modelled as Nat with
  explicit bounds where overflow matters.
-/
import Mathlib

namespace ConsensusWorker

/-- Upper bound of u64 arithmetic: the first value a u64 period cannot take. -/
def U64_SUCC : Nat := 18446744073709551616

/-- A slot, as in models::Slot: a (period, thread) pair.  period is u64, thread
is u8 in the source; here both are Nat with explicit bounds where they matter. -/
structure Slot where
  period : Nat
  thread : Nat
deriving DecidableEq, Repr

/-- Errors of the worker that the embedding distinguishes
(consensus::error::ConsensusError variants used by consensus_worker.rs). -/
inductive ConsensusError where
  | SendChannelError (msg : String)
  | SlotOverflowError
  | KeyError
  | CommunicationError
deriving DecidableEq, Repr

deriving instance DecidableEq for Except

/-- Modelled from the spec: `next((p,t))` = (p, t+1) if t+1<T else (p+1, 0);
slot overflow (period past u64) is a reportable error.  The function itself
(models::Slot::get_next_slot) is not part of the given sources. -/
def Slot.get_next_slot (s : Slot) (threadCount : Nat) : Except ConsensusError Slot :=
  if s.thread + 1 < threadCount then .ok ⟨s.period, s.thread + 1⟩
  else if s.period + 1 < U64_SUCC then .ok ⟨s.period + 1, 0⟩
  else .error .SlotOverflowError

/-- Strict lexicographic slot order, as derived Ord on (period, thread). -/
def slotLtb (a b : Slot) : Bool :=
  decide (a.period < b.period) || (decide (a.period = b.period) && decide (a.thread < b.thread))

/-- Non-strict lexicographic slot order. -/
def slotLeb (a b : Slot) : Bool := slotLtb a b || decide (a = b)

/-- Linear index of a slot for a thread count T: period * T + thread. -/
def Slot.indexT (s : Slot) (threadCount : Nat) : Nat := s.period * threadCount + s.thread

/-- Measure used to bound slot iteration: linear index at the u8 thread bound. -/
def slotMu (s : Slot) : Nat := s.period * 256 + s.thread

/-- Effect calls the worker makes on its collaborators (Pool, BlockGraph,
Protocol, Storage), recorded in execution order.  BlockId, Block, OperationId
and graph exports are opaque to the worker and modelled as Nat. -/
inductive Effect where
  | poolGetBatch (slot : Slot) (exclude : List Nat) (askedNb : Nat)
  | createBlock (slot : Slot) (ops : List Nat)
  | incomingBlock (bid : Nat) (slot : Option Slot)
  | incomingHeader (bid : Nat) (slot : Option Slot)
  | dbSlotTick (slot : Slot)
  | poolUpdateCurrentSlot (slot : Slot)
  | prune
  | storageAddBlockBatch
  | integratedBlock (bid : Nat)
  | notifyBlockAttack (bid : Nat)
  | sendWishlistDelta (add : Finset Nat) (remove : Finset Nat)
  | poolUpdateLatestFinalPeriods (v : List Nat)
  | storageGetBlock (bid : Nat)
  | sendGetBlocksResults (m : List (Nat × Option Nat))
  | rearmTimer (slot : Slot)
deriving DecidableEq

/-- A candidate operation as supplied by the pool: the (OperationId, Operation,
size) triple of get_operation_batch, flattened to the data the worker consults.
oid is the content-hash id, changes the abstract result of get_changes, addrs
the involved addresses for the local fee target. -/
structure OpCand where
  oid : Nat
  changes : Nat
  addrs : List Nat
deriving DecidableEq, Repr

/-- Abstract LedgerSnapshot operations (consensus ledger, outside this file's
sources): a ledger state is a Nat, try_apply_changes either yields the updated
ledger or rejects, merge with a fresh snapshot restricted to addresses. -/
structure LedgerOps where
  tryApply : Nat → Nat → Option Nat
  mergeAddrs : Nat → List Nat → Nat

/-- One decision of the block-creation inner loop: the candidate, the ledger
state the decision was taken on, and whether try_apply_changes accepted it. -/
abbrev Decision := OpCand × Nat × Bool

/-- Operations included by a batch: the accepted candidates, in decision order. -/
def included (ds : List Decision) : List OpCand :=
  (ds.filter (fun d => d.2.2)).map (fun d => d.1)

/-- Ids rejected by a batch, in decision order. -/
def rejectedIds (ds : List Decision) : List Nat :=
  (ds.filter (fun d => !d.2.2)).map (fun d => d.1.oid)

/-- The `for (id, op, size) in candidates` body of get_best_operations: each
candidate in pool order has its changes tried on the evolving ledger; success
includes the operation, failure only records the id for exclusion. -/
def procCands (L : LedgerOps) : Nat → List OpCand → Nat × List Decision
  | led, [] => (led, [])
  | led, c :: rest =>
    match L.tryApply led c.changes with
    | some led2 =>
      let r := procCands L led2 rest
      (r.1, (c, led, true) :: r.2)
    | none =>
      let r := procCands L led rest
      (r.1, (c, led, false) :: r.2)

/-- Record of one pool batch round trip of get_best_operations. -/
structure PoolBatchRec where
  excludeReq : List Nat
  askedNb : Nat
  decisions : List Decision
deriving DecidableEq, Repr

/-- The `while ops.len() < max_operations_per_block` loop of
get_best_operations.  The pool is modelled by the finite schedule of batches it
returns to successive requests; an exhausted schedule behaves like an empty
batch, which the code treats as `candidates.len() < asked_nb` and stops.
Returns (included operations, batch records, effect trace). -/
def gbo_loop (L : LedgerOps) (maxOps : Nat) (slot : Slot) :
    List (List OpCand) → List OpCand → List Nat → Nat →
    List OpCand × List PoolBatchRec × List Effect
  | batches, ops, excl, led =>
    if maxOps ≤ ops.length then (ops, [], [])
    else
      match batches with
      | [] => (ops, [], [])
      | cands :: rest =>
        let askedNb := maxOps - ops.length
        let toExcl := excl ++ ops.map (fun o => o.oid)
        let led1 := L.mergeAddrs led (cands.map (fun c => c.addrs)).flatten
        let pr := procCands L led1 cands
        let rec0 : PoolBatchRec := ⟨toExcl, askedNb, pr.2⟩
        let eff0 := [Effect.poolGetBatch slot toExcl askedNb]
        if cands.length < askedNb then (ops ++ included pr.2, [rec0], eff0)
        else
          let r := gbo_loop L maxOps slot rest (ops ++ included pr.2)
            (excl ++ rejectedIds pr.2) pr.1
          (r.1, rec0 :: r.2.1, eff0 ++ r.2.2)

/-- Consensus configuration fields the worker consults, together with the
leader selector.  The selector is modelled from the spec as a pure function of
the slot (RandomSelector is outside the given sources; the spec states draws
are deterministic and stateless with respect to call order).  nodes holds the
(public_key, private_key) roster, keys modelled as Nat. -/
structure Cfg where
  thread_count : Nat
  nodes : List (Nat × Nat)
  current_node_index : Nat
  max_operations_per_block : Nat
  disable_block_creation : Bool
  genesis_public_key : Nat
  selectorDraw : Slot → Nat
  storageConfigured : Bool

/-- The mutable worker state fields whose evolution the claims constrain. -/
structure WorkerState where
  previous_slot : Option Slot
  next_slot : Slot
  wishlist : Finset Nat
  latest_final_periods : List Nat
  clock_compensation : Int
deriving DecidableEq

/-- get_best_operations: resolves the local key pair (KeyError if the node
index is out of the roster) and runs the batch loop starting from empty
included and rejected sets and the parent ledger snapshot (abstract state 0). -/
def get_best_operations (cfg : Cfg) (L : LedgerOps) (cur_slot : Slot)
    (pool : List (List OpCand)) :
    Except ConsensusError (List OpCand × List PoolBatchRec × List Effect) :=
  if cfg.current_node_index < cfg.nodes.length then
    .ok (gbo_loop L cfg.max_operations_per_block cur_slot pool [] [] 0)
  else .error .KeyError

/-- Snapshot of the BlockGraph answers consumed by one block_db_changed
fan-out: get_blocks_to_propagate, get_attack_attempts, get_block_wishlist and
get_latest_final_blocks_periods (already projected to periods). -/
structure DbSnap where
  toPropagate : List (Nat × Nat)
  attackAttempts : List Nat
  wishlist : Finset Nat
  latestFinalPeriods : List Nat
deriving DecidableEq

/-- block_db_changed: prune (with storage forwarding when configured), then
propagation of integrated blocks, then attack notifications, then the wishlist
delta (sent only when non-empty, then cached), then the latest-final-periods
push to pool (only when changed). -/
def block_db_changed (storageConfigured : Bool) (db : DbSnap) (st : WorkerState) :
    List Effect × WorkerState :=
  let pruneEff := Effect.prune ::
    (if storageConfigured then [Effect.storageAddBlockBatch] else [])
  let propEff := db.toPropagate.map (fun p => Effect.integratedBlock p.1)
  let atkEff := db.attackAttempts.map Effect.notifyBlockAttack
  let new_wishlist := db.wishlist
  let new_blocks := new_wishlist \ st.wishlist
  let remove_blocks := st.wishlist \ new_wishlist
  let wlStep : List Effect × Finset Nat :=
    if new_blocks ≠ ∅ ∨ remove_blocks ≠ ∅ then
      ([Effect.sendWishlistDelta new_blocks remove_blocks], new_wishlist)
    else ([], st.wishlist)
  let lfpStep : List Effect × List Nat :=
    if st.latest_final_periods ≠ db.latestFinalPeriods then
      ([Effect.poolUpdateLatestFinalPeriods db.latestFinalPeriods], db.latestFinalPeriods)
    else ([], st.latest_final_periods)
  (pruneEff ++ propEff ++ atkEff ++ wlStep.1 ++ lfpStep.1,
   { st with wishlist := wlStep.2, latest_final_periods := lfpStep.2 })

/-- Collaborator answers consumed by one slot tick: the BlockGraph snapshot for
the fan-out, the pool batch schedule for block creation, the abstract ledger
operations, and the id create_block returns for the freshly created block. -/
structure TickEnv where
  db : DbSnap
  pool : List (List OpCand)
  ledgerOps : LedgerOps
  createdId : Nat

/-- The block-creation part of a slot tick (lines guarded by
`!disable_block_creation && next_slot.period > 0 && draw == local index`):
operation selection, create_block and the ingress of the created block via
incoming_block.  nxt is the already-advanced next_slot. -/
def tick_create_effects (cfg : Cfg) (env : TickEnv) (cur_slot nxt : Slot) :
    Except ConsensusError (List Effect) :=
  if cfg.disable_block_creation = false ∧ 0 < nxt.period ∧
      cfg.selectorDraw cur_slot = cfg.current_node_index then
    match get_best_operations cfg env.ledgerOps cur_slot env.pool with
    | .error e => .error e
    | .ok r =>
      .ok (r.2.2 ++ [Effect.createBlock cur_slot (r.1.map (fun o => o.oid)),
        Effect.incomingBlock env.createdId (some cur_slot)])
  else .ok []

/-- slot_tick: advance previous_slot/next_slot, create a block when enabled,
next period is past genesis and the draw elects the local node, signal the
tick to the block graph and the pool, run the fan-out, rearm the timer. -/
def slot_tick (cfg : Cfg) (env : TickEnv) (st : WorkerState) :
    Except ConsensusError (WorkerState × List Effect) :=
  let cur_slot := st.next_slot
  match cur_slot.get_next_slot cfg.thread_count with
  | .error e => .error e
  | .ok nxt =>
    match tick_create_effects cfg env cur_slot nxt with
    | .error e => .error e
    | .ok createEff =>
      let st1 : WorkerState := { st with previous_slot := some cur_slot, next_slot := nxt }
      let fan := block_db_changed cfg.storageConfigured env.db st1
      .ok (fan.2, createEff ++
        [Effect.dbSlotTick cur_slot, Effect.poolUpdateCurrentSlot cur_slot] ++
        fan.1 ++ [Effect.rearmTimer nxt])

/-- The public key answered for a slot by GetSelectionDraws: period-0 slots
carry the genesis key, others the drawn staker's public key
(cfg.nodes indexing; the draw is within the roster per the selector contract,
so the default of getD is never consulted on valid configurations). -/
def draws_key (cfg : Cfg) (s : Slot) : Nat :=
  if s.period = 0 then cfg.genesis_public_key
  else (cfg.nodes.getD (cfg.selectorDraw s) (0, 0)).1

/-- The GetSelectionDraws loop: while cur_slot < end, push (cur_slot, key) and
advance; a failing get_next_slot breaks with SlotOverflowError.  The loop in
the source has no fuel; the Nat argument only makes the recursion structural
and is chosen large enough to be irrelevant (none = fuel ran out, which the
theorems show unreachable for u8-bounded threads). -/
def draws_loop (cfg : Cfg) (endSlot : Slot) :
    Nat → Slot → List (Slot × Nat) → Option (Except ConsensusError (List (Slot × Nat)))
  | fuel, cur, res =>
    if slotLtb cur endSlot then
      match fuel with
      | 0 => none
      | fuel' + 1 =>
        match cur.get_next_slot cfg.thread_count with
        | .ok nxt => draws_loop cfg endSlot fuel' nxt (res ++ [(cur, draws_key cfg cur)])
        | .error _ => some (.error ConsensusError.SlotOverflowError)
    else some (.ok res)

/-- The GetSelectionDraws computation for [start, end). -/
def getSelectionDraws (cfg : Cfg) (start endSlot : Slot) :
    Option (Except ConsensusError (List (Slot × Nat))) :=
  draws_loop cfg endSlot (slotMu endSlot + 2) start []

/-- Consensus commands (reply channels are implicit; CmdEnv models whether the
requester is still listening). -/
inductive ConsensusCommandM where
  | GetBlockGraphStatus
  | GetActiveBlock (block_id : Nat)
  | GetSelectionDraws (start : Slot) (endSlot : Slot)
  | GetBootGraph
deriving DecidableEq

/-- Per-command collaborator answers: the BootsrapableGraph::try_from result
(which can fail before the reply is sent), and whether the oneshot reply
channel still has its receiver (send succeeds). -/
structure CmdEnv where
  bootGraph : Except ConsensusError Nat
  sendOk : Bool

/-- The error message built when a reply send fails, per command arm. -/
def sendChannelMsg : ConsensusCommandM → String
  | .GetBlockGraphStatus => "could not send GetBlockGraphStatus answer"
  | .GetActiveBlock _ => "could not send GetBlock answer"
  | .GetSelectionDraws _ _ => "could not send GetSelectionDraws response"
  | .GetBootGraph => "could not send GetBootGraph answer"

/-- process_consensus_command: every arm computes a response from read-only
state and sends it on the oneshot channel; a failed send becomes a
SendChannelError returned to the caller.  No worker state field is written. -/
def process_consensus_command (cfg : Cfg) (env : CmdEnv) (st : WorkerState)
    (cmd : ConsensusCommandM) : Except ConsensusError Unit × WorkerState :=
  match cmd with
  | .GetBlockGraphStatus =>
    ((if env.sendOk then .ok () else .error (.SendChannelError (sendChannelMsg cmd))), st)
  | .GetActiveBlock _ =>
    ((if env.sendOk then .ok () else .error (.SendChannelError (sendChannelMsg cmd))), st)
  | .GetSelectionDraws start endSlot =>
    let _result := getSelectionDraws cfg start endSlot
    ((if env.sendOk then .ok () else .error (.SendChannelError (sendChannelMsg cmd))), st)
  | .GetBootGraph =>
    match env.bootGraph with
    | .error e => (.error e, st)
    | .ok _ =>
      ((if env.sendOk then .ok () else .error (.SendChannelError (sendChannelMsg cmd))), st)

/-- Outcome of one run_loop iteration around a consensus command. -/
inductive LoopStep where
  | continueLoop (st : WorkerState)
  | exitWith (e : ConsensusError)
deriving DecidableEq

/-- The `self.process_consensus_command(cmd).await?` site of run_loop: an Ok
continues the loop with the (unchanged) state, an Err exits run_loop returning
the error to its caller. -/
def run_loop_on_command (cfg : Cfg) (env : CmdEnv) (st : WorkerState)
    (cmd : ConsensusCommandM) : LoopStep :=
  match process_consensus_command cfg env st cmd with
  | (.ok _, st2) => .continueLoop st2
  | (.error e, _) => .exitWith e

/-- Insert into the batched GetBlocks result map (HashMap::insert semantics:
the entry for the key is replaced). -/
def mapInsert (m : List (Nat × Option Nat)) (k : Nat) (v : Option Nat) :
    List (Nat × Option Nat) :=
  (k, v) :: m.filter (fun p => !(p.1 == k))

/-- Lookup in the batched GetBlocks result map. -/
def alookup (k : Nat) : List (Nat × Option Nat) → Option (Option Nat)
  | [] => none
  | p :: rest => if p.1 = k then some p.2 else alookup k rest

/-- The `for block_hash in list` loop of the GetBlocks handler, threading the
effect trace and the result map. -/
def gb_loop (storageConfigured : Bool) (active storage : Nat → Option Nat) :
    List Nat → List Effect → List (Nat × Option Nat) →
    List Effect × List (Nat × Option Nat)
  | [], tr, res => (tr, res)
  | bid :: rest, tr, res =>
    match active bid with
    | some b => gb_loop storageConfigured active storage rest tr (mapInsert res bid (some b))
    | none =>
      if storageConfigured then
        gb_loop storageConfigured active storage rest (tr ++ [Effect.storageGetBlock bid])
          (mapInsert res bid (storage bid))
      else gb_loop storageConfigured active storage rest tr (mapInsert res bid none)

/-- ProtocolEvent::GetBlocks handler: per id the active block, else the storage
result when storage is configured, else None; the whole map is then sent once
via send_get_blocks_results. -/
def get_blocks_handler (storageConfigured : Bool) (active storage : Nat → Option Nat)
    (ids : List Nat) : List Effect × List (Nat × Option Nat) :=
  let r := gb_loop storageConfigured active storage ids [] []
  (r.1 ++ [Effect.sendGetBlocksResults r.2], r.2)

/-- The four input events the worker loop serves (the management channel only
breaks the loop and is not modelled), each carrying the collaborator answers
its handler consumes. -/
inductive WEvent where
  | slotTick (env : TickEnv)
  | command (cmd : ConsensusCommandM) (env : CmdEnv)
  | receivedBlock (bid : Nat) (db : DbSnap)
  | receivedHeader (bid : Nat) (db : DbSnap)
  | getBlocks (ids : List Nat) (active : Nat → Option Nat) (storage : Nat → Option Nat)

/-- Whether the handler of an event performs DAG-mutating BlockGraph calls. -/
def WEvent.dagMutating : WEvent → Bool
  | .slotTick _ => true
  | .command _ _ => false
  | .receivedBlock _ _ => true
  | .receivedHeader _ _ => true
  | .getBlocks _ _ _ => false

/-- One iteration of run_loop on one event: the handler dispatch of the
tokio::select arms.  An error return exits run_loop with that error. -/
def worker_step (cfg : Cfg) (ev : WEvent) (st : WorkerState) :
    Except ConsensusError (WorkerState × List Effect) :=
  match ev with
  | .slotTick env => slot_tick cfg env st
  | .command cmd env =>
    match process_consensus_command cfg env st cmd with
    | (.ok _, st2) => .ok (st2, [])
    | (.error e, _) => .error e
  | .receivedBlock bid db =>
    let fan := block_db_changed cfg.storageConfigured db st
    .ok (fan.2, Effect.incomingBlock bid st.previous_slot :: fan.1)
  | .receivedHeader bid db =>
    let fan := block_db_changed cfg.storageConfigured db st
    .ok (fan.2, Effect.incomingHeader bid st.previous_slot :: fan.1)
  | .getBlocks ids active storage =>
    .ok (st, (get_blocks_handler cfg.storageConfigured active storage ids).1)

/-- Worker states reachable from construction (ConsensusWorker::new computes
previous_slot from the clock and next_slot as its successor, or (0,0) before
genesis, with an empty wishlist) by any sequence of served events. -/
inductive Reachable (cfg : Cfg) : WorkerState → Prop where
  | init (prev : Option Slot) (nxt : Slot) (lfp0 : List Nat) (cc : Int)
      (h : (match prev with
            | none => Except.ok ⟨0, 0⟩
            | some s => s.get_next_slot cfg.thread_count) = Except.ok nxt) :
      Reachable cfg ⟨prev, nxt, ∅, lfp0, cc⟩
  | step (st st2 : WorkerState) (ev : WEvent) (tr : List Effect)
      (hst : Reachable cfg st) (h : worker_step cfg ev st = .ok (st2, tr)) :
      Reachable cfg st2

/-! Helper predicates and counting over effect traces. -/

/-- Phase of an effect in a handler trace: 0 for creation/ingress/tick work,
1–5 for the five fan-out steps in their contractual order, 6 for trailing
work (timer rearm, batched GetBlocks reply). -/
def phase : Effect → Nat
  | .poolGetBatch _ _ _ => 0
  | .createBlock _ _ => 0
  | .incomingBlock _ _ => 0
  | .incomingHeader _ _ => 0
  | .dbSlotTick _ => 0
  | .poolUpdateCurrentSlot _ => 0
  | .storageGetBlock _ => 0
  | .prune => 1
  | .storageAddBlockBatch => 1
  | .integratedBlock _ => 2
  | .notifyBlockAttack _ => 3
  | .sendWishlistDelta _ _ => 4
  | .poolUpdateLatestFinalPeriods _ => 5
  | .sendGetBlocksResults _ => 6
  | .rearmTimer _ => 6

def isPrune : Effect → Bool
  | .prune => true
  | _ => false

def isStorageAdd : Effect → Bool
  | .storageAddBlockBatch => true
  | _ => false

def isWishlistDelta : Effect → Bool
  | .sendWishlistDelta _ _ => true
  | _ => false

def isSendResults : Effect → Bool
  | .sendGetBlocksResults _ => true
  | _ => false

def isStorageRead (bid : Nat) : Effect → Bool
  | .storageGetBlock b => b == bid
  | _ => false

/-- Number of effects satisfying p in a trace. -/
def countEff (p : Effect → Bool) (l : List Effect) : Nat := (l.filter p).length

/-- Number of occurrences of an id in a request list. -/
def occCount (bid : Nat) : List Nat → Nat
  | [] => 0
  | x :: rest => (if x = bid then 1 else 0) + occCount bid rest

/-! Concrete configuration and state used by witnesses and counterexamples. -/

/-- A small two-node, two-thread configuration. -/
def cfgW : Cfg :=
  { thread_count := 2, nodes := [(10, 11), (12, 13)], current_node_index := 0,
    max_operations_per_block := 2, disable_block_creation := false,
    genesis_public_key := 99, selectorDraw := fun _ => 0, storageConfigured := false }

/-- A worker state as built before genesis: no previous slot, next slot (0,0). -/
def stW : WorkerState :=
  { previous_slot := none, next_slot := ⟨0, 0⟩, wishlist := ∅,
    latest_final_periods := [0, 0], clock_compensation := 0 }

/-- The storage reads a GetBlocks request performs, in request order. -/
def gbReads (sc : Bool) (active : Nat → Option Nat) : List Nat → List Effect
  | [] => []
  | bid :: rest =>
    (match active bid with
     | some _ => []
     | none => if sc then [Effect.storageGetBlock bid] else []) ++ gbReads sc active rest

/-- The value a GetBlocks request computes for an id. -/
def gbValue (sc : Bool) (active storage : Nat → Option Nat) (bid : Nat) : Option Nat :=
  match active bid with
  | some b => some b
  | none => if sc then storage bid else none

/-- The BlockGraph snapshot with nothing to propagate, no attacks, an empty
wishlist and unchanged final periods. -/
def dbW : DbSnap :=
  { toPropagate := [], attackAttempts := [], wishlist := ∅,
    latestFinalPeriods := [0, 0] }

/-- Single-thread configuration: the slot after (0,0) is (1,0), so the
creation guard `next_slot.period > 0` passes already at cur_slot (0,0). -/
def cfgC1 : Cfg :=
  { thread_count := 1, nodes := [(5, 6)], current_node_index := 0,
    max_operations_per_block := 0, disable_block_creation := false,
    genesis_public_key := 99, selectorDraw := fun _ => 0, storageConfigured := false }

/-- A tick environment with an exhausted pool and a rejecting ledger. -/
def envW : TickEnv :=
  { db := dbW, pool := [],
    ledgerOps := { tryApply := fun _ _ => Option.none, mergeAddrs := fun l _ => l },
    createdId := 42 }

/-- The trace of the tick of cfgC1 at cur_slot (0,0). -/
def trC1 : List Effect :=
  [Effect.createBlock ⟨0, 0⟩ [], Effect.incomingBlock 42 (some ⟨0, 0⟩),
   Effect.dbSlotTick ⟨0, 0⟩, Effect.poolUpdateCurrentSlot ⟨0, 0⟩,
   Effect.prune, Effect.rearmTimer ⟨1, 0⟩]

/-- Chained exclusion-set correctness for the successive pool batch requests
of one get_best_operations call: each request excludes exactly the rejected
ids accumulated so far followed by the ids of the operations included so far
(the code builds it as exclude.iter().chain(op_ids)), starting from two empty
sets. -/
def chainOk : List Nat → List Nat → List PoolBatchRec → Prop
  | _, _, [] => True
  | excl, incIds, r :: rest =>
    r.excludeReq = excl ++ incIds ∧
    chainOk (excl ++ rejectedIds r.decisions)
      (incIds ++ (included r.decisions).map (fun o => o.oid)) rest

/-- Ledger oracle rejecting exactly changes-token 1. -/
def ledW : LedgerOps :=
  { tryApply := fun led c => if c = 1 then Option.none else some (led + c),
    mergeAddrs := fun led _ => led }

/-- One pool batch of three operations; the second is rejected by ledW. -/
def poolW : List (List OpCand) :=
  [[⟨100, 0, []⟩, ⟨101, 1, []⟩, ⟨102, 2, []⟩]]

theorem slotLtb_irrefl (a : Slot) : slotLtb a a = false := by
  simp [slotLtb]

theorem slotLeb_refl (a : Slot) : slotLeb a a = true := by
  simp [slotLeb]

theorem slotLtb_trans {a b c : Slot} (h1 : slotLtb a b = true) (h2 : slotLtb b c = true) :
    slotLtb a c = true := by
  simp only [slotLtb, Bool.or_eq_true, Bool.and_eq_true, decide_eq_true_eq] at *
  rcases h1 with h1 | ⟨h1, h1t⟩ <;> rcases h2 with h2 | ⟨h2, h2t⟩
  · exact Or.inl (h1.trans h2)
  · exact Or.inl (h2 ▸ h1)
  · exact Or.inl (h1 ▸ h2)
  · exact Or.inr ⟨h1.trans h2, h1t.trans h2t⟩

theorem slotLeb_slotLtb_trans {a b c : Slot} (h1 : slotLeb a b = true)
    (h2 : slotLtb b c = true) : slotLtb a c = true := by
  simp only [slotLeb, Bool.or_eq_true, decide_eq_true_eq] at h1
  rcases h1 with h1 | rfl
  · exact slotLtb_trans h1 h2
  · exact h2

theorem slotLtb_slotLeb_trans {a b c : Slot} (h1 : slotLtb a b = true)
    (h2 : slotLeb b c = true) : slotLtb a c = true := by
  simp only [slotLeb, Bool.or_eq_true, decide_eq_true_eq] at h2
  rcases h2 with h2 | rfl
  · exact slotLtb_trans h1 h2
  · exact h1

theorem slotLtb_asymm {a b : Slot} (h : slotLtb a b = true) : slotLtb b a = false := by
  by_contra hc
  have hb : slotLtb b a = true := by
    cases hba : slotLtb b a
    · exact absurd hba hc
    · rfl
  have := slotLtb_trans h hb
  rw [slotLtb_irrefl] at this
  exact Bool.false_ne_true this

theorem slotLtb_total {a b : Slot} (h : slotLtb a b = false) : slotLeb b a = true := by
  simp only [slotLtb, Bool.or_eq_false_iff, Bool.and_eq_false_iff,
    decide_eq_false_iff_not, not_lt] at h
  obtain ⟨hp, hq⟩ := h
  simp only [slotLeb, slotLtb, Bool.or_eq_true, Bool.and_eq_true, decide_eq_true_eq]
  rcases Nat.lt_or_ge b.period a.period with hlt | hge
  · exact Or.inl (Or.inl hlt)
  · have hpe : a.period = b.period := Nat.le_antisymm hge hp
    rcases hq with hq | hq
    · exact absurd hpe (by simpa using hq)
    · rcases Nat.lt_or_ge b.thread a.thread with ht | ht
      · exact Or.inl (Or.inr ⟨hpe.symm, ht⟩)
      · have hte : a.thread = b.thread := Nat.le_antisymm ht hq
        exact Or.inr (by cases a; cases b; simp_all)

theorem slotLeb_of_not_lt {a b : Slot} (h : slotLtb a b = false) : slotLeb b a = true :=
  slotLtb_total h

theorem not_slotLtb_of_slotLeb {a b : Slot} (h : slotLeb a b = true) :
    slotLtb b a = false := by
  simp only [slotLeb, Bool.or_eq_true, decide_eq_true_eq] at h
  rcases h with h | rfl
  · exact slotLtb_asymm h
  · exact slotLtb_irrefl a

theorem slotLeb_lt_or_eq {a b : Slot} (h : slotLeb a b = true) :
    slotLtb a b = true ∨ a = b := by
  simpa [slotLeb] using h

/-- The successor of a slot is strictly greater. -/
theorem get_next_slot_gt {s n : Slot} {T : Nat} (h : s.get_next_slot T = .ok n) :
    slotLtb s n = true := by
  unfold Slot.get_next_slot at h
  split at h
  · cases h
    simp [slotLtb]
  · split at h
    · cases h
      simp [slotLtb]
    · cases h

/-- The successor keeps threads inside [0,T). -/
theorem get_next_slot_thread_lt {s n : Slot} {T : Nat} (hT : 0 < T)
    (h : s.get_next_slot T = .ok n) : n.thread < T := by
  unfold Slot.get_next_slot at h
  split at h
  · cases h
    assumption
  · split at h
    · cases h
      exact hT
    · cases h

/-- Any slot at or above the successor: the successor is the least slot above s
among slots with valid thread index. -/
theorem get_next_slot_least {s n x : Slot} {T : Nat} (hx : x.thread < T)
    (hlt : slotLtb s x = true) (h : s.get_next_slot T = .ok n) :
    slotLeb n x = true := by
  unfold Slot.get_next_slot at h
  simp only [slotLtb, Bool.or_eq_true, Bool.and_eq_true, decide_eq_true_eq] at hlt
  split at h
  · cases h
    rcases hlt with hp | ⟨hp, ht⟩
    · simp [slotLeb, slotLtb, hp]
    · rcases Nat.lt_or_ge (s.thread + 1) x.thread with h2 | h2
      · simp [slotLeb, slotLtb, hp, h2]
      · have : x.thread = s.thread + 1 := Nat.le_antisymm h2 ht
        cases x
        simp_all [slotLeb]
  · rename_i hwrap
    split at h
    · cases h
      rcases hlt with hp | ⟨hp, ht⟩
      · rcases Nat.lt_or_ge (s.period + 1) x.period with h2 | h2
        · simp [slotLeb, slotLtb, h2]
        · have hpe : x.period = s.period + 1 := Nat.le_antisymm h2 hp
          rcases Nat.eq_zero_or_pos x.thread with h3 | h3
          · cases x
            simp_all [slotLeb]
          · simp [slotLeb, slotLtb, hpe, h3]
      · exfalso
        have : s.thread + 1 ≥ T := Nat.le_of_not_lt hwrap
        omega
    · cases h

/-- The successor strictly increases the u8-bounded measure. -/
theorem get_next_slot_mu {s n : Slot} {T : Nat} (hs : s.thread < 256) (hT : T ≤ 256)
    (h : s.get_next_slot T = .ok n) : slotMu s < slotMu n := by
  unfold Slot.get_next_slot at h
  split at h
  · cases h
    simp [slotMu]
  · split at h
    · cases h
      simp only [slotMu]
      have : s.thread < 256 := hs
      nlinarith
    · cases h

/-- The measure is compatible with the slot order on u8-bounded threads. -/
theorem slotMu_lt_of_slotLtb {a b : Slot} (ha : a.thread < 256) (hb : b.thread < 256)
    (h : slotLtb a b = true) : slotMu a < slotMu b := by
  simp only [slotLtb, Bool.or_eq_true, Bool.and_eq_true, decide_eq_true_eq] at h
  simp only [slotMu]
  rcases h with h | ⟨hp, ht⟩
  · nlinarith
  · rw [hp]
    omega

/-- The successor advances the T-linear index by one, for valid threads. -/
theorem get_next_slot_indexT {s n : Slot} {T : Nat} (hs : s.thread < T)
    (h : s.get_next_slot T = .ok n) : n.indexT T = s.indexT T + 1 := by
  unfold Slot.get_next_slot at h
  split at h
  · cases h
    simp [Slot.indexT]
    omega
  · rename_i hwrap
    split at h
    · cases h
      have : s.thread + 1 = T := by omega
      simp only [Slot.indexT]
      nlinarith
    · cases h

/-- The T-linear index is monotone in the slot order for valid threads. -/
theorem indexT_le_of_slotLeb {a b : Slot} {T : Nat} (ha : a.thread < T) (hb : b.thread < T)
    (h : slotLeb a b = true) : a.indexT T ≤ b.indexT T := by
  simp only [slotLeb, slotLtb, Bool.or_eq_true, Bool.and_eq_true, decide_eq_true_eq] at h
  simp only [Slot.indexT]
  rcases h with (h | ⟨hp, ht⟩) | rfl
  · nlinarith
  · rw [hp]
    omega
  · omega

theorem indexT_lt_of_slotLtb {a b : Slot} {T : Nat} (ha : a.thread < T) (hb : b.thread < T)
    (h : slotLtb a b = true) : a.indexT T < b.indexT T := by
  simp only [slotLtb, Bool.or_eq_true, Bool.and_eq_true, decide_eq_true_eq] at h
  simp only [Slot.indexT]
  rcases h with h | ⟨hp, ht⟩
  · nlinarith
  · rw [hp]
    omega

theorem countEff_append (p : Effect → Bool) (l1 l2 : List Effect) :
    countEff p (l1 ++ l2) = countEff p l1 + countEff p l2 := by
  simp [countEff, List.filter_append]

theorem countEff_eq_zero (p : Effect → Bool) (l : List Effect)
    (h : ∀ e ∈ l, p e = false) : countEff p l = 0 := by
  simp only [countEff, List.length_eq_zero]
  exact List.filter_eq_nil_iff.mpr (fun e he => by simp [h e he])

theorem pairwise_phase_of_const {l : List Effect} (c : Nat) (h : ∀ a ∈ l, phase a = c) :
    List.Pairwise (fun a b => phase a ≤ phase b) l := by
  induction l with
  | nil => exact List.Pairwise.nil
  | cons x xs ih =>
    refine List.Pairwise.cons (fun b hb => ?_) (ih (fun a ha => h a (by simp [ha])))
    rw [h x (by simp), h b (by simp [hb])]

theorem pairwise_phase_append {l1 l2 : List Effect} {m : Nat}
    (h1 : List.Pairwise (fun a b => phase a ≤ phase b) l1)
    (h2 : List.Pairwise (fun a b => phase a ≤ phase b) l2)
    (hb1 : ∀ a ∈ l1, phase a ≤ m) (hb2 : ∀ b ∈ l2, m ≤ phase b) :
    List.Pairwise (fun a b => phase a ≤ phase b) (l1 ++ l2) :=
  List.pairwise_append.mpr ⟨h1, h2, fun a ha b hb => (hb1 a ha).trans (hb2 b hb)⟩

/-! Shape facts about the block_db_changed fan-out trace. -/
theorem bdc_trace_eq (sc : Bool) (db : DbSnap) (st : WorkerState) :
    (block_db_changed sc db st).1 =
      (Effect.prune :: (if sc then [Effect.storageAddBlockBatch] else [])) ++
      db.toPropagate.map (fun p => Effect.integratedBlock p.1) ++
      db.attackAttempts.map Effect.notifyBlockAttack ++
      (if db.wishlist \ st.wishlist ≠ ∅ ∨ st.wishlist \ db.wishlist ≠ ∅ then
        [Effect.sendWishlistDelta (db.wishlist \ st.wishlist) (st.wishlist \ db.wishlist)]
       else []) ++
      (if st.latest_final_periods ≠ db.latestFinalPeriods then
        [Effect.poolUpdateLatestFinalPeriods db.latestFinalPeriods]
       else []) := by
  simp only [block_db_changed]
  split <;> split <;> split <;> rfl

theorem bdc_state_eq (sc : Bool) (db : DbSnap) (st : WorkerState) :
    (block_db_changed sc db st).2 =
      { st with
        wishlist := db.wishlist,
        latest_final_periods := db.latestFinalPeriods } := by
  have hwl : db.wishlist \ st.wishlist = ∅ → st.wishlist \ db.wishlist = ∅ →
      st.wishlist = db.wishlist := fun h1 h2 =>
    Finset.Subset.antisymm (Finset.sdiff_eq_empty_iff_subset.mp h2)
      (Finset.sdiff_eq_empty_iff_subset.mp h1)
  simp only [block_db_changed]
  split
  · split
    · rfl
    · rename_i hlfp
      push_neg at hlfp
      simp [hlfp]
  · rename_i hne
    push_neg at hne
    have heq := hwl hne.1 hne.2
    split
    · simp [heq]
    · rename_i hlfp
      push_neg at hlfp
      simp [heq, hlfp]

theorem bdc_phase_bounds (sc : Bool) (db : DbSnap) (st : WorkerState) :
    ∀ e ∈ (block_db_changed sc db st).1, 1 ≤ phase e ∧ phase e ≤ 5 := by
  intro e he
  rw [bdc_trace_eq] at he
  simp only [List.mem_append, List.mem_cons, List.mem_map] at he
  rcases he with ((((he | he) | he) | he) | he) | he
  · subst he; simp [phase]
  · split at he <;> simp_all [phase]
  · obtain ⟨x, _, rfl⟩ := he; simp [phase]
  · obtain ⟨x, _, rfl⟩ := he; simp [phase]
  · split at he <;> simp_all [phase]
  · split at he <;> simp_all [phase]

theorem bdc_pairwise (sc : Bool) (db : DbSnap) (st : WorkerState) :
    List.Pairwise (fun a b => phase a ≤ phase b) (block_db_changed sc db st).1 := by
  rw [bdc_trace_eq]
  refine pairwise_phase_append (m := 5) ?_ ?_ ?_ ?_
  · refine pairwise_phase_append (m := 4) ?_ ?_ ?_ ?_
    · refine pairwise_phase_append (m := 3) ?_ ?_ ?_ ?_
      · refine pairwise_phase_append (m := 2) ?_ ?_ ?_ ?_
        · refine pairwise_phase_of_const 1 ?_
          intro a ha
          simp only [List.mem_cons] at ha
          rcases ha with rfl | ha
          · rfl
          · split at ha <;> simp_all [phase]
        · refine pairwise_phase_of_const 2 ?_
          intro a ha
          obtain ⟨x, _, rfl⟩ := List.mem_map.mp ha
          rfl
        · intro a ha
          simp only [List.mem_cons] at ha
          rcases ha with rfl | ha
          · simp [phase]
          · split at ha <;> simp_all [phase]
        · intro b hb
          obtain ⟨x, _, rfl⟩ := List.mem_map.mp hb
          simp [phase]
      · refine pairwise_phase_of_const 3 ?_
        intro a ha
        obtain ⟨x, _, rfl⟩ := List.mem_map.mp ha
        rfl
      · intro a ha
        simp only [List.mem_append, List.mem_cons, List.mem_map] at ha
        rcases ha with (rfl | ha) | ha
        · simp [phase]
        · split at ha <;> simp_all [phase]
        · obtain ⟨x, _, rfl⟩ := ha; simp [phase]
      · intro b hb
        obtain ⟨x, _, rfl⟩ := List.mem_map.mp hb
        simp [phase]
    · refine pairwise_phase_of_const 4 ?_
      intro a ha
      split at ha <;> simp_all [phase]
    · intro a ha
      simp only [List.mem_append, List.mem_cons, List.mem_map] at ha
      rcases ha with ((rfl | ha) | ha) | ha
      · simp [phase]
      · split at ha <;> simp_all [phase]
      · obtain ⟨x, _, rfl⟩ := ha; simp [phase]
      · obtain ⟨x, _, rfl⟩ := ha; simp [phase]
    · intro b hb
      split at hb <;> simp_all [phase]
  · refine pairwise_phase_of_const 5 ?_
    intro a ha
    split at ha <;> simp_all [phase]
  · intro a ha
    have := bdc_phase_bounds sc db st a
      (by rw [bdc_trace_eq]; exact List.mem_append_left _ ha)
    exact this.2
  · intro b hb
    split at hb <;> simp_all [phase]

theorem bdc_count_prune (sc : Bool) (db : DbSnap) (st : WorkerState) :
    countEff isPrune (block_db_changed sc db st).1 = 1 := by
  rw [bdc_trace_eq]
  simp only [countEff_append]
  have h2 : countEff isPrune (db.toPropagate.map (fun p => Effect.integratedBlock p.1)) = 0 :=
    countEff_eq_zero _ _ (fun e he => by
      obtain ⟨x, _, rfl⟩ := List.mem_map.mp he; rfl)
  have h3 : countEff isPrune (db.attackAttempts.map Effect.notifyBlockAttack) = 0 :=
    countEff_eq_zero _ _ (fun e he => by
      obtain ⟨x, _, rfl⟩ := List.mem_map.mp he; rfl)
  have h4 : ∀ l : List Effect, (∀ e ∈ l, isPrune e = false) → countEff isPrune l = 0 :=
    fun l h => countEff_eq_zero _ _ h
  have h1 : countEff isPrune
      (Effect.prune :: (if sc then [Effect.storageAddBlockBatch] else [])) = 1 := by
    cases sc <;> simp [countEff, isPrune, List.filter]
  rw [h1, h2, h3]
  have h5 : countEff isPrune (if db.wishlist \ st.wishlist ≠ ∅ ∨ st.wishlist \ db.wishlist ≠ ∅
      then [Effect.sendWishlistDelta (db.wishlist \ st.wishlist) (st.wishlist \ db.wishlist)]
      else []) = 0 := by
    split <;> simp [countEff, isPrune, List.filter]
  have h6 : countEff isPrune (if st.latest_final_periods ≠ db.latestFinalPeriods
      then [Effect.poolUpdateLatestFinalPeriods db.latestFinalPeriods] else []) = 0 := by
    split <;> simp [countEff, isPrune, List.filter]
  rw [h5, h6]

theorem bdc_count_storageAdd (sc : Bool) (db : DbSnap) (st : WorkerState) :
    countEff isStorageAdd (block_db_changed sc db st).1 = if sc then 1 else 0 := by
  rw [bdc_trace_eq]
  simp only [countEff_append]
  have h2 : countEff isStorageAdd (db.toPropagate.map (fun p => Effect.integratedBlock p.1)) = 0 :=
    countEff_eq_zero _ _ (fun e he => by
      obtain ⟨x, _, rfl⟩ := List.mem_map.mp he; rfl)
  have h3 : countEff isStorageAdd (db.attackAttempts.map Effect.notifyBlockAttack) = 0 :=
    countEff_eq_zero _ _ (fun e he => by
      obtain ⟨x, _, rfl⟩ := List.mem_map.mp he; rfl)
  have h1 : countEff isStorageAdd
      (Effect.prune :: (if sc then [Effect.storageAddBlockBatch] else [])) =
      if sc then 1 else 0 := by
    cases sc <;> simp [countEff, isStorageAdd, List.filter]
  have h5 : countEff isStorageAdd (if db.wishlist \ st.wishlist ≠ ∅ ∨ st.wishlist \ db.wishlist ≠ ∅
      then [Effect.sendWishlistDelta (db.wishlist \ st.wishlist) (st.wishlist \ db.wishlist)]
      else []) = 0 := by
    split <;> simp [countEff, isStorageAdd, List.filter]
  have h6 : countEff isStorageAdd (if st.latest_final_periods ≠ db.latestFinalPeriods
      then [Effect.poolUpdateLatestFinalPeriods db.latestFinalPeriods] else []) = 0 := by
    split <;> simp [countEff, isStorageAdd, List.filter]
  rw [h1, h2, h3, h5, h6]
  cases sc <;> rfl

theorem filter_map_nil {α : Type} (f : α → Effect) (p : Effect → Bool) (l : List α)
    (h : ∀ x, p (f x) = false) : (l.map f).filter p = [] := by
  induction l with
  | nil => rfl
  | cons x xs ih => simp [List.filter, h x, ih]

/-- Every effect of the get_best_operations loop is a pool batch request for
the creation slot. -/
theorem gbo_effects_shape (L : LedgerOps) (maxOps : Nat) (slot : Slot) :
    ∀ batches ops excl led, ∀ e ∈ (gbo_loop L maxOps slot batches ops excl led).2.2,
      ∃ ex n, e = Effect.poolGetBatch slot ex n := by
  intro batches
  induction batches with
  | nil =>
    intro ops excl led e he
    simp only [gbo_loop] at he
    split at he <;> simp at he
  | cons cands rest ih =>
    intro ops excl led e he
    simp only [gbo_loop] at he
    split at he
    · simp at he
    · split at he
      · simp only [List.mem_singleton] at he
        exact ⟨_, _, he⟩
      · simp only [List.mem_append, List.mem_singleton] at he
        rcases he with rfl | he
        · exact ⟨_, _, rfl⟩
        · exact ih _ _ _ e he

/-- C2 counterexample.  The claim states that a failed reply send
(SendChannel) is caught by the worker and run_loop continues iterating.  On
the code, process_consensus_command returns the SendChannelError and the
`?` at the run_loop call site propagates it: at this concrete input (requester
dropped, sendOk = false) the loop exits with the error instead of continuing. -/
theorem c2_counterexample :
    run_loop_on_command cfgW { bootGraph := .ok 0, sendOk := false } stW
        .GetBlockGraphStatus =
      .exitWith (.SendChannelError "could not send GetBlockGraphStatus answer") := by
  rfl

/-- C2 amended: when a reply send on a command's single-shot channel fails,
process_consensus_command returns a SendChannelError and run_loop propagates
it to its caller (the iteration exits with the error); the worker does not
catch it.  (For GetBootGraph the export must succeed for control to reach the
send.) -/
theorem c2_sendchannel_fatal (cfg : Cfg) (env : CmdEnv) (st : WorkerState)
    (cmd : ConsensusCommandM) (hsend : env.sendOk = false)
    (hboot : env.bootGraph.isOk = true) :
    run_loop_on_command cfg env st cmd =
      .exitWith (.SendChannelError (sendChannelMsg cmd)) := by
  cases cmd with
  | GetBlockGraphStatus => simp [run_loop_on_command, process_consensus_command, hsend]
  | GetActiveBlock b => simp [run_loop_on_command, process_consensus_command, hsend]
  | GetSelectionDraws s e => simp [run_loop_on_command, process_consensus_command, hsend]
  | GetBootGraph =>
    cases hb : env.bootGraph with
    | error e => rw [hb] at hboot; simp [Except.isOk, Except.toBool] at hboot
    | ok v => simp [run_loop_on_command, process_consensus_command, hsend, hb]

/-- C2 witness: the amended theorem applied at a concrete dropped requester. -/
theorem c2_sendchannel_fatal_witness :
    run_loop_on_command cfgW { bootGraph := .ok 0, sendOk := false } stW
        (.GetActiveBlock 5) =
      .exitWith (.SendChannelError (sendChannelMsg (.GetActiveBlock 5))) :=
  c2_sendchannel_fatal cfgW { bootGraph := .ok 0, sendOk := false } stW
    (.GetActiveBlock 5) (by decide) (by decide)

/-- C4: in every fan-out the wishlist delta sent to protocol is exactly the
symmetric difference (add = new_wishlist minus cached, remove = cached minus
new_wishlist), it is sent exactly once when one side is non-empty and not at
all otherwise, and afterwards the cached wishlist equals the computed
new_wishlist (when no delta is sent the two are already equal as sets). -/
theorem c4_wishlist_delta (sc : Bool) (db : DbSnap) (st : WorkerState) :
    (block_db_changed sc db st).2.wishlist = db.wishlist ∧
    ((block_db_changed sc db st).1).filter isWishlistDelta =
      (if db.wishlist \ st.wishlist = ∅ ∧ st.wishlist \ db.wishlist = ∅ then []
       else [Effect.sendWishlistDelta (db.wishlist \ st.wishlist)
              (st.wishlist \ db.wishlist)]) := by
  constructor
  · rw [bdc_state_eq]
  · rw [bdc_trace_eq]
    simp only [List.filter_append]
    have h1 : List.filter isWishlistDelta
        (Effect.prune :: (if sc then [Effect.storageAddBlockBatch] else [])) = [] := by
      cases sc <;> rfl
    have h2 : List.filter isWishlistDelta
        (db.toPropagate.map (fun p => Effect.integratedBlock p.1)) = [] :=
      filter_map_nil _ _ _ (fun x => rfl)
    have h3 : List.filter isWishlistDelta
        (db.attackAttempts.map Effect.notifyBlockAttack) = [] :=
      filter_map_nil _ _ _ (fun x => rfl)
    have h5 : List.filter isWishlistDelta
        (if st.latest_final_periods ≠ db.latestFinalPeriods
         then [Effect.poolUpdateLatestFinalPeriods db.latestFinalPeriods] else []) = [] := by
      split <;> rfl
    rw [h1, h2, h3, h5]
    simp only [List.nil_append, List.append_nil]
    split
    · rename_i hcond
      rw [if_neg]
      · rfl
      · rcases hcond with h | h
        · exact fun hc => h hc.1
        · exact fun hc => h hc.2
    · rename_i hcond
      push_neg at hcond
      rw [if_pos ⟨hcond.1, hcond.2⟩]
      rfl

/-! ### Claim C9 -/

theorem pcc_state_unchanged (cfg : Cfg) (env : CmdEnv) (st : WorkerState)
    (cmd : ConsensusCommandM) :
    (process_consensus_command cfg env st cmd).2 = st := by
  cases cmd
  · rfl
  · rfl
  · rfl
  · simp only [process_consensus_command]
    cases env.bootGraph <;> rfl

/-- C9: processing any consensus command (GetBlockGraphStatus, GetActiveBlock,
GetSelectionDraws, GetBootGraph) leaves every worker state field unchanged —
previous_slot, next_slot, wishlist, latest_final_periods, clock_compensation —
including when the reply send fails (env.sendOk arbitrary) and when the boot
export fails.  The selector is a pure function here, per its contract of
stateless deterministic draws. -/
theorem c9_command_frame (cfg : Cfg) (env : CmdEnv) (st : WorkerState)
    (cmd : ConsensusCommandM) :
    (process_consensus_command cfg env st cmd).2 = st :=
  pcc_state_unchanged cfg env st cmd

/-- C10: a GetSelectionDraws query with start at or after end (including
strictly greater) replies Ok with the empty list: the loop breaks on its first
test, performing no draw and producing no error. -/
theorem c10_empty_range (cfg : Cfg) (start endSlot : Slot)
    (h : slotLeb endSlot start = true) :
    getSelectionDraws cfg start endSlot = some (.ok []) := by
  have hlt : slotLtb start endSlot = false := not_slotLtb_of_slotLeb h
  unfold getSelectionDraws
  rw [draws_loop]
  simp [hlt]

/-- C10 witness: start strictly greater than end. -/
theorem c10_empty_range_witness :
    getSelectionDraws cfgW ⟨3, 1⟩ ⟨2, 0⟩ = some (.ok []) :=
  c10_empty_range cfgW ⟨3, 1⟩ ⟨2, 0⟩ (by decide)

theorem gb_loop_trace (sc : Bool) (active storage : Nat → Option Nat) :
    ∀ ids tr res, (gb_loop sc active storage ids tr res).1 = tr ++ gbReads sc active ids := by
  intro ids
  induction ids with
  | nil => intro tr res; simp [gb_loop, gbReads]
  | cons bid rest ih =>
    intro tr res
    simp only [gb_loop, gbReads]
    cases h : active bid with
    | some b => simp [ih]
    | none => cases sc <;> simp [ih, List.append_assoc]

theorem gbReads_shape (sc : Bool) (active : Nat → Option Nat) :
    ∀ ids, ∀ e ∈ gbReads sc active ids, ∃ b, e = Effect.storageGetBlock b := by
  intro ids
  induction ids with
  | nil => intro e he; simp [gbReads] at he
  | cons x rest ih =>
    intro e he
    simp only [gbReads, List.mem_append] at he
    rcases he with he | he
    · cases hx : active x with
      | some b => rw [hx] at he; simp at he
      | none =>
        rw [hx] at he
        cases sc with
        | true => simp at he; exact ⟨x, he⟩
        | false => simp at he
    · exact ih e he

theorem countEff_gbReads (sc : Bool) (active : Nat → Option Nat) (bid : Nat) :
    ∀ ids, countEff (isStorageRead bid) (gbReads sc active ids) =
      if active bid = none ∧ sc = true then occCount bid ids else 0 := by
  intro ids
  induction ids with
  | nil =>
    simp only [gbReads, occCount, countEff, List.filter_nil, List.length_nil]
    split <;> rfl
  | cons x rest ih =>
    simp only [gbReads, countEff_append, ih, occCount]
    by_cases hxb : x = bid
    · subst hxb
      cases hx : active x with
      | some b => simp [countEff, hx]
      | none =>
        cases sc with
        | true => simp [countEff, isStorageRead, hx]
        | false => simp [countEff, hx]
    · have hxe : (x == bid) = false := by simp [hxb]
      cases hx : active x with
      | some b => simp [countEff, hxb]
      | none =>
        cases sc with
        | true => simp [countEff, isStorageRead, List.filter, hxe, hxb]
        | false => simp [countEff, hxb]

theorem alookup_filter (k k2 : Nat) (h : k2 ≠ k) : ∀ m : List (Nat × Option Nat),
    alookup k2 (m.filter (fun p => !(p.1 == k))) = alookup k2 m := by
  intro m
  induction m with
  | nil => rfl
  | cons p rest ih =>
    rw [List.filter_cons]
    have h3 : ¬ k = k2 := fun hc => h hc.symm
    by_cases hp : p.1 = k
    · have h2 : ¬ p.1 = k2 := by rw [hp]; exact fun hc => h hc.symm
      simp [hp, alookup, h2, h3, ih]
    · by_cases h2 : p.1 = k2
      · simp [hp, alookup, h2, h, ih]
      · simp [hp, alookup, h2, ih]

theorem alookup_mapInsert (m : List (Nat × Option Nat)) (k k2 : Nat) (v : Option Nat) :
    alookup k2 (mapInsert m k v) = if k = k2 then some v else alookup k2 m := by
  by_cases hk : k = k2
  · subst hk; simp [mapInsert, alookup]
  · simp only [mapInsert, alookup, hk, if_false]
    exact alookup_filter k k2 (fun hc => hk hc.symm) m

theorem gb_loop_alookup (sc : Bool) (active storage : Nat → Option Nat) (bid : Nat) :
    ∀ ids tr res, alookup bid (gb_loop sc active storage ids tr res).2 =
      if bid ∈ ids then some (gbValue sc active storage bid) else alookup bid res := by
  intro ids
  induction ids with
  | nil => intro tr res; simp [gb_loop]
  | cons x rest ih =>
    intro tr res
    have hval : ∀ tr2 res2 v, alookup bid (gb_loop sc active storage rest tr2
        (mapInsert res2 x v)).2 =
        if bid ∈ rest then some (gbValue sc active storage bid)
        else if x = bid then some v else alookup bid res2 := by
      intro tr2 res2 v
      rw [ih, alookup_mapInsert]
    by_cases hmem : bid ∈ rest
    · cases hx : active x with
      | some b => simp [gb_loop, hx, ih, hmem, List.mem_cons]
      | none => cases sc <;> simp [gb_loop, hx, ih, hmem, List.mem_cons]
    · by_cases hxb : x = bid
      · subst hxb
        cases hx : active x with
        | some b => simp [gb_loop, hx, hval, hmem, gbValue]
        | none =>
          cases sc with
          | true => simp [gb_loop, hx, hval, hmem, gbValue]
          | false => simp [gb_loop, hx, hval, hmem, gbValue]
      · have hnm : bid ∉ x :: rest := by
          intro hc
          rcases List.mem_cons.mp hc with hcc | hcc
          · exact hxb hcc.symm
          · exact hmem hcc
        cases hx : active x with
        | some b => simp [gb_loop, hx, hval, hmem, hxb, hnm]
        | none =>
          cases sc with
          | true => simp [gb_loop, hx, hval, hmem, hxb, hnm]
          | false => simp [gb_loop, hx, hval, hmem, hxb, hnm]

/-- C8 counterexample.  The claim asks for exactly one storage read per
requested id.  A request list may repeat an id: for ids = [5,5], id 5 not
active and storage configured, the handler performs two storage reads for 5. -/
theorem c8_counterexample :
    countEff (isStorageRead 5)
      (get_blocks_handler true (fun _ => Option.none) (fun _ => some 7) [5, 5]).1 = 2 := by
  rfl

/-- C8 amended: for every GetBlocks protocol event, each requested id maps in
the batched result to the cloned active block if active, otherwise to the
storage lookup result when storage is configured (with exactly one storage
read per occurrence of the id in the request list), otherwise to None; and the
whole map is sent exactly once via send_get_blocks_results, as the final
action of the handler. -/
theorem c8_get_blocks (sc : Bool) (active storage : Nat → Option Nat)
    (ids : List Nat) (bid : Nat) (hmem : bid ∈ ids) :
    alookup bid (get_blocks_handler sc active storage ids).2 =
      some (gbValue sc active storage bid) ∧
    countEff (isStorageRead bid) (get_blocks_handler sc active storage ids).1 =
      (if active bid = none ∧ sc = true then occCount bid ids else 0) ∧
    countEff isSendResults (get_blocks_handler sc active storage ids).1 = 1 ∧
    (get_blocks_handler sc active storage ids).1.getLast? =
      some (Effect.sendGetBlocksResults (get_blocks_handler sc active storage ids).2) := by
  refine ⟨?_, ?_, ?_, ?_⟩
  · show alookup bid (gb_loop sc active storage ids [] []).2 = _
    rw [gb_loop_alookup]
    simp [hmem]
  · show countEff (isStorageRead bid) ((gb_loop sc active storage ids [] []).1 ++
      [Effect.sendGetBlocksResults (gb_loop sc active storage ids [] []).2]) = _
    rw [countEff_append, gb_loop_trace]
    have h0 : countEff (isStorageRead bid)
        [Effect.sendGetBlocksResults (gb_loop sc active storage ids [] []).2] = 0 := rfl
    rw [h0, List.nil_append, countEff_gbReads]
    omega
  · show countEff isSendResults ((gb_loop sc active storage ids [] []).1 ++
      [Effect.sendGetBlocksResults (gb_loop sc active storage ids [] []).2]) = 1
    rw [countEff_append, gb_loop_trace, List.nil_append]
    have h0 : countEff isSendResults (gbReads sc active ids) = 0 :=
      countEff_eq_zero _ _ (fun e he => by
        obtain ⟨b, rfl⟩ := gbReads_shape sc active ids e he
        rfl)
    rw [h0]
    rfl
  · show ((gb_loop sc active storage ids [] []).1 ++
      [Effect.sendGetBlocksResults (gb_loop sc active storage ids [] []).2]).getLast? = _
    rw [List.getLast?_concat]
    rfl

/-- C8 witness: the amended theorem at a concrete request with an id served
from storage. -/
theorem c8_get_blocks_witness :
    alookup 5 (get_blocks_handler true (fun _ => Option.none)
        (fun b => some (b + 100)) [5, 6]).2 =
      some (gbValue true (fun _ => Option.none) (fun b => some (b + 100)) 5) :=
  (c8_get_blocks true (fun _ => Option.none) (fun b => some (b + 100)) [5, 6] 5
    (by decide)).1

/-! ### Claims C3 and C1: slot tick and fan-out shape -/

theorem phase_le_six (e : Effect) : phase e ≤ 6 := by
  cases e <;> simp [phase]

theorem isPrune_eq_false_of_phase_zero {e : Effect} (h : phase e = 0) :
    isPrune e = false := by
  cases e <;> simp_all [phase, isPrune]

theorem isStorageAdd_eq_false_of_phase_zero {e : Effect} (h : phase e = 0) :
    isStorageAdd e = false := by
  cases e <;> simp_all [phase, isStorageAdd]

theorem get_best_operations_effects_shape (cfg : Cfg) (L : LedgerOps) (slot : Slot)
    (pool : List (List OpCand))
    (r : List OpCand × List PoolBatchRec × List Effect)
    (h : get_best_operations cfg L slot pool = .ok r) :
    ∀ e ∈ r.2.2, ∃ ex n, e = Effect.poolGetBatch slot ex n := by
  unfold get_best_operations at h
  split at h
  · cases h
    exact gbo_effects_shape L cfg.max_operations_per_block slot pool [] [] 0
  · cases h

theorem tick_create_effects_phase (cfg : Cfg) (env : TickEnv) (cur nxt : Slot)
    (ce : List Effect) (h : tick_create_effects cfg env cur nxt = .ok ce) :
    ∀ e ∈ ce, phase e = 0 := by
  unfold tick_create_effects at h
  split at h
  · split at h
    · cases h
    · rename_i r hg
      cases h
      intro e he
      simp only [List.mem_append, List.mem_cons, List.not_mem_nil, or_false] at he
      rcases he with he | rfl | rfl
      · obtain ⟨ex, n, rfl⟩ :=
          get_best_operations_effects_shape cfg env.ledgerOps cur env.pool r hg e he
        rfl
      · rfl
      · rfl
  · cases h
    intro e he
    simp at he

/-- Decomposition of a successful slot tick into its advanced slot, creation
effects, fan-out and timer rearm. -/
theorem slot_tick_shape (cfg : Cfg) (env : TickEnv) (st st2 : WorkerState)
    (tr : List Effect) (h : slot_tick cfg env st = .ok (st2, tr)) :
    ∃ (nxt : Slot) (createEff : List Effect),
      st.next_slot.get_next_slot cfg.thread_count = .ok nxt ∧
      tick_create_effects cfg env st.next_slot nxt = .ok createEff ∧
      st2 = (block_db_changed cfg.storageConfigured env.db
        { st with previous_slot := some st.next_slot, next_slot := nxt }).2 ∧
      tr = createEff ++
        [Effect.dbSlotTick st.next_slot, Effect.poolUpdateCurrentSlot st.next_slot] ++
        (block_db_changed cfg.storageConfigured env.db
          { st with previous_slot := some st.next_slot, next_slot := nxt }).1 ++
        [Effect.rearmTimer nxt] := by
  simp only [slot_tick] at h
  split at h
  · cases h
  · rename_i nxt hnxt
    split at h
    · cases h
    · rename_i ce hce
      cases h
      exact ⟨nxt, ce, hnxt, hce, rfl, rfl⟩

/-- C3: every handler performs at most the one fan-out of block_db_changed,
exactly one when a DAG-mutating call happened in the handler (slot tick,
received block, received header, the locally created block being ingested in
its tick), and none otherwise; the prune step forwards to storage exactly when
storage is configured; and the whole handler trace is ordered by phase: all
DAG mutations, then prune, propagation, attack notifications, wishlist delta,
latest-final-periods push, in that order. -/
theorem c3_fanout_order (cfg : Cfg) (ev : WEvent) (st st2 : WorkerState)
    (tr : List Effect) (h : worker_step cfg ev st = .ok (st2, tr)) :
    countEff isPrune tr = (if ev.dagMutating = true then 1 else 0) ∧
    countEff isStorageAdd tr =
      (if ev.dagMutating = true ∧ cfg.storageConfigured = true then 1 else 0) ∧
    List.Pairwise (fun a b => phase a ≤ phase b) tr := by
  cases ev with
  | slotTick env =>
    obtain ⟨nxt, ce, hnxt, hce, hst2, htr⟩ := slot_tick_shape cfg env st st2 tr h
    subst htr
    have hph := tick_create_effects_phase cfg env st.next_slot nxt ce hce
    have hmid : ∀ e ∈ [Effect.dbSlotTick st.next_slot,
        Effect.poolUpdateCurrentSlot st.next_slot], phase e = 0 := by
      intro e he
      rcases List.mem_cons.mp he with rfl | he
      · rfl
      · rcases List.mem_cons.mp he with rfl | he
        · rfl
        · simp at he
    refine ⟨?_, ?_, ?_⟩
    · rw [countEff_append, countEff_append, countEff_append,
        countEff_eq_zero _ ce (fun e he => isPrune_eq_false_of_phase_zero (hph e he)),
        bdc_count_prune]
      simp [WEvent.dagMutating, countEff, List.filter, isPrune]
    · rw [countEff_append, countEff_append, countEff_append,
        countEff_eq_zero _ ce (fun e he => isStorageAdd_eq_false_of_phase_zero (hph e he)),
        bdc_count_storageAdd]
      cases hsc : cfg.storageConfigured <;>
        simp [WEvent.dagMutating, countEff, List.filter, isStorageAdd]
    · refine pairwise_phase_append (m := 6) ?_ ?_ ?_ ?_
      · refine pairwise_phase_append (m := 1) ?_ ?_ ?_ ?_
        · refine pairwise_phase_append (m := 0) ?_ ?_ ?_ ?_
          · exact pairwise_phase_of_const 0 hph
          · exact pairwise_phase_of_const 0 hmid
          · intro a ha
            rw [hph a ha]
          · intro b hb
            rw [hmid b hb]
        · exact bdc_pairwise _ _ _
        · intro a ha
          rcases List.mem_append.mp ha with ha | ha
          · rw [hph a ha]; omega
          · rw [hmid a ha]; omega
        · intro b hb
          exact (bdc_phase_bounds _ _ _ b hb).1
      · exact pairwise_phase_of_const 6 (by
          intro a ha
          rcases List.mem_cons.mp ha with rfl | ha
          · rfl
          · simp at ha)
      · intro a _
        exact phase_le_six a
      · intro b hb
        rcases List.mem_cons.mp hb with rfl | hb
        · rfl
        · simp at hb
  | command cmd env =>
    simp only [worker_step] at h
    rcases hpc : process_consensus_command cfg env st cmd with ⟨r, st3⟩
    rw [hpc] at h
    cases r with
    | ok u =>
      simp only at h
      cases h
      exact ⟨rfl, rfl, List.Pairwise.nil⟩
    | error e => cases h
  | receivedBlock bid db =>
    simp only [worker_step] at h
    cases h
    refine ⟨?_, ?_, ?_⟩
    · show countEff isPrune ([Effect.incomingBlock bid st.previous_slot] ++
        (block_db_changed cfg.storageConfigured db st).1) = _
      rw [countEff_append, bdc_count_prune]
      simp [WEvent.dagMutating, countEff, List.filter, isPrune]
    · show countEff isStorageAdd ([Effect.incomingBlock bid st.previous_slot] ++
        (block_db_changed cfg.storageConfigured db st).1) = _
      rw [countEff_append, bdc_count_storageAdd]
      cases hsc : cfg.storageConfigured <;>
        simp [WEvent.dagMutating, countEff, List.filter, isStorageAdd]
    · refine List.Pairwise.cons ?_ (bdc_pairwise _ _ _)
      intro b hb
      have := (bdc_phase_bounds _ _ _ b hb).1
      simp only [phase]
      omega
  | receivedHeader bid db =>
    simp only [worker_step] at h
    cases h
    refine ⟨?_, ?_, ?_⟩
    · show countEff isPrune ([Effect.incomingHeader bid st.previous_slot] ++
        (block_db_changed cfg.storageConfigured db st).1) = _
      rw [countEff_append, bdc_count_prune]
      simp [WEvent.dagMutating, countEff, List.filter, isPrune]
    · show countEff isStorageAdd ([Effect.incomingHeader bid st.previous_slot] ++
        (block_db_changed cfg.storageConfigured db st).1) = _
      rw [countEff_append, bdc_count_storageAdd]
      cases hsc : cfg.storageConfigured <;>
        simp [WEvent.dagMutating, countEff, List.filter, isStorageAdd]
    · refine List.Pairwise.cons ?_ (bdc_pairwise _ _ _)
      intro b hb
      have := (bdc_phase_bounds _ _ _ b hb).1
      simp only [phase]
      omega
  | getBlocks ids active storage =>
    simp only [worker_step] at h
    cases h
    have htr : (get_blocks_handler cfg.storageConfigured active storage ids).1 =
        gbReads cfg.storageConfigured active ids ++
        [Effect.sendGetBlocksResults
          (gb_loop cfg.storageConfigured active storage ids [] []).2] := by
      show (gb_loop cfg.storageConfigured active storage ids [] []).1 ++ _ = _
      rw [gb_loop_trace, List.nil_append]
    rw [htr]
    have hreads : ∀ e ∈ gbReads cfg.storageConfigured active ids, phase e = 0 := by
      intro e he
      obtain ⟨b, rfl⟩ := gbReads_shape _ _ _ e he
      rfl
    refine ⟨?_, ?_, ?_⟩
    · rw [countEff_append,
        countEff_eq_zero _ _ (fun e he => isPrune_eq_false_of_phase_zero (hreads e he))]
      simp [WEvent.dagMutating, countEff, List.filter, isPrune]
    · rw [countEff_append,
        countEff_eq_zero _ _ (fun e he => isStorageAdd_eq_false_of_phase_zero (hreads e he))]
      simp [WEvent.dagMutating, countEff, List.filter, isStorageAdd]
    · refine pairwise_phase_append (m := 0) ?_ ?_ ?_ ?_
      · exact pairwise_phase_of_const 0 hreads
      · exact pairwise_phase_of_const 6 (by
          intro a ha
          rcases List.mem_cons.mp ha with rfl | ha
          · rfl
          · simp at ha)
      · intro a ha
        rw [hreads a ha]
      · intro b _
        exact Nat.zero_le _

/-- C3 witness: a received block at a concrete state. -/
theorem c3_fanout_order_witness :
    countEff isPrune [Effect.incomingBlock 5 Option.none, Effect.prune] =
      (if (WEvent.receivedBlock 5 dbW).dagMutating = true then 1 else 0) ∧
    countEff isStorageAdd [Effect.incomingBlock 5 Option.none, Effect.prune] =
      (if (WEvent.receivedBlock 5 dbW).dagMutating = true ∧
          cfgW.storageConfigured = true then 1 else 0) ∧
    List.Pairwise (fun a b => phase a ≤ phase b)
      [Effect.incomingBlock 5 Option.none, Effect.prune] :=
  c3_fanout_order cfgW (.receivedBlock 5 dbW) stW stW
    [Effect.incomingBlock 5 Option.none, Effect.prune] (by decide)

/-- C1 counterexample.  The claim says a tick whose cur_slot has period 0
never invokes create_block or incoming_block.  The code's guard tests the
already-advanced next_slot, so at cur_slot = (0,0) with thread_count 1
(next_slot = (1,0)), an elected node does create a block and feed it to
incoming_block, although cur_slot.period = 0. -/
theorem c1_counterexample :
    stW.next_slot.period = 0 ∧
    worker_step cfgC1 (.slotTick envW) stW =
      .ok ({ stW with previous_slot := some ⟨0, 0⟩, next_slot := ⟨1, 0⟩ }, trC1) ∧
    Effect.createBlock ⟨0, 0⟩ [] ∈ trC1 ∧
    Effect.incomingBlock 42 (some ⟨0, 0⟩) ∈ trC1 := by
  refine ⟨rfl, by decide, by decide, by decide⟩

/-- C1 amended: block creation is skipped on every slot tick whose advanced
next slot (the successor of cur_slot) still has period 0 — equivalently, on
every period-0 cur_slot other than the last thread of period 0 — regardless
of the selector draw and of disable_block_creation: neither create_block nor
incoming_block appears in the tick's trace then.  (At cur_slot = (0, T-1) the
guard `next_slot.period > 0` passes and a block can be created.) -/
theorem c1_genesis_skip (cfg : Cfg) (env : TickEnv) (st st2 : WorkerState)
    (tr : List Effect) (nxt : Slot)
    (hnxt : st.next_slot.get_next_slot cfg.thread_count = .ok nxt)
    (hperiod : nxt.period = 0)
    (h : worker_step cfg (.slotTick env) st = .ok (st2, tr)) :
    (∀ s ops, Effect.createBlock s ops ∉ tr) ∧
    (∀ bid s, Effect.incomingBlock bid s ∉ tr) := by
  obtain ⟨nxt2, ce, hnxt2, hce, hst2, htr⟩ := slot_tick_shape cfg env st st2 tr h
  rw [hnxt] at hnxt2
  have hne : nxt = nxt2 := Except.ok.inj hnxt2
  subst hne
  have hcond : ¬(cfg.disable_block_creation = false ∧ 0 < nxt.period ∧
      cfg.selectorDraw st.next_slot = cfg.current_node_index) := by
    rintro ⟨-, hp, -⟩
    omega
  unfold tick_create_effects at hce
  rw [if_neg hcond] at hce
  have hle : ce = [] := (Except.ok.inj hce).symm
  subst hle htr
  constructor
  · intro s ops hmem
    simp only [List.nil_append, List.mem_append, List.mem_cons, List.not_mem_nil,
      or_false] at hmem
    rcases hmem with (hmem | hmem) | hmem
    · rcases hmem with hmem | hmem <;> exact absurd hmem (by simp)
    · have := (bdc_phase_bounds _ _ _ _ hmem).1
      simp [phase] at this
    · exact absurd hmem (by simp)
  · intro bid s hmem
    simp only [List.nil_append, List.mem_append, List.mem_cons, List.not_mem_nil,
      or_false] at hmem
    rcases hmem with (hmem | hmem) | hmem
    · rcases hmem with hmem | hmem <;> exact absurd hmem (by simp)
    · have := (bdc_phase_bounds _ _ _ _ hmem).1
      simp [phase] at this
    · exact absurd hmem (by simp)

/-- C1 witness: with two threads, the tick at cur_slot (0,0) has next slot
(0,1), still in period 0, and the trace contains no creation effect. -/
theorem c1_genesis_skip_witness :
    (∀ s ops, Effect.createBlock s ops ∉
      [Effect.dbSlotTick (⟨0, 0⟩ : Slot), Effect.poolUpdateCurrentSlot ⟨0, 0⟩,
       Effect.prune, Effect.rearmTimer ⟨0, 1⟩]) ∧
    (∀ bid s, Effect.incomingBlock bid s ∉
      [Effect.dbSlotTick (⟨0, 0⟩ : Slot), Effect.poolUpdateCurrentSlot ⟨0, 0⟩,
       Effect.prune, Effect.rearmTimer ⟨0, 1⟩]) :=
  c1_genesis_skip cfgW envW stW
    { stW with previous_slot := some ⟨0, 0⟩, next_slot := ⟨0, 1⟩ }
    [Effect.dbSlotTick ⟨0, 0⟩, Effect.poolUpdateCurrentSlot ⟨0, 0⟩,
     Effect.prune, Effect.rearmTimer ⟨0, 1⟩] ⟨0, 1⟩
    (by decide) (by decide) (by decide)

/-- C7: in every reachable worker state, whenever previous_slot is set it is
strictly below next_slot, and next_slot is exactly the successor of
previous_slot for the configured thread count (this holds from construction
on, hence in particular after the first slot tick, which always sets
previous_slot).  Before genesis previous_slot is None and the order constraint
is vacuous. -/
theorem c7_slot_invariant (cfg : Cfg) (st : WorkerState) (h : Reachable cfg st) :
    ∀ p, st.previous_slot = some p →
      p.get_next_slot cfg.thread_count = .ok st.next_slot ∧
      slotLtb p st.next_slot = true := by
  induction h with
  | init prev nxt lfp0 cc hinit =>
    intro p hp
    cases prev with
    | none => cases hp
    | some s =>
      have hp2 : some s = some p := hp
      cases hp2
      exact ⟨hinit, get_next_slot_gt hinit⟩
  | step st st2 ev tr hst hstep ih =>
    cases ev with
    | slotTick env =>
      obtain ⟨nxt, ce, hnxt, hce, hst2, htr⟩ := slot_tick_shape cfg env st st2 tr hstep
      rw [bdc_state_eq] at hst2
      intro p hp
      rw [hst2] at hp
      have hp2 : some st.next_slot = some p := hp
      cases hp2
      rw [hst2]
      exact ⟨hnxt, get_next_slot_gt hnxt⟩
    | command cmd env =>
      simp only [worker_step] at hstep
      rcases hpc : process_consensus_command cfg env st cmd with ⟨r, st3⟩
      rw [hpc] at hstep
      have hst3 : st3 = st := by
        have h2 := pcc_state_unchanged cfg env st cmd
        rw [hpc] at h2
        exact h2
      cases r with
      | ok u =>
        simp only at hstep
        cases hstep
        rw [hst3]
        exact ih
      | error e => cases hstep
    | receivedBlock bid db =>
      simp only [worker_step] at hstep
      cases hstep
      rw [bdc_state_eq]
      exact ih
    | receivedHeader bid db =>
      simp only [worker_step] at hstep
      cases hstep
      rw [bdc_state_eq]
      exact ih
    | getBlocks ids active storage =>
      simp only [worker_step] at hstep
      cases hstep
      exact ih

/-- C7 witness: the post-construction state with previous slot (0,0) is
reachable and satisfies the invariant. -/
theorem c7_slot_invariant_witness :
    Slot.get_next_slot ⟨0, 0⟩ cfgW.thread_count = .ok ⟨0, 1⟩ ∧
    slotLtb ⟨0, 0⟩ ⟨0, 1⟩ = true :=
  c7_slot_invariant cfgW
    { previous_slot := some ⟨0, 0⟩, next_slot := ⟨0, 1⟩, wishlist := ∅,
      latest_final_periods := [], clock_compensation := 0 }
    (Reachable.init (some ⟨0, 0⟩) ⟨0, 1⟩ [] 0 (by decide)) ⟨0, 0⟩ rfl

/-! ### Claim C5 -/
theorem slotLeb_of_slotLtb {a b : Slot} (h : slotLtb a b = true) : slotLeb a b = true := by
  simp [slotLeb, h]

/-- Below a slot with valid u64 period and valid thread, the successor never
overflows. -/
theorem get_next_slot_ok_below {cur e : Slot} {T : Nat} (he : e.thread < T)
    (hper : e.period < U64_SUCC) (hlt : slotLtb cur e = true) :
    ∃ n, cur.get_next_slot T = .ok n := by
  unfold Slot.get_next_slot
  split
  · exact ⟨_, rfl⟩
  · split
    · exact ⟨_, rfl⟩
    · rename_i h1 h2
      exfalso
      simp only [slotLtb, Bool.or_eq_true, Bool.and_eq_true, decide_eq_true_eq] at hlt
      rcases hlt with hp | ⟨hp, ht⟩
      · omega
      · omega

/-- The only error the GetSelectionDraws loop produces is SlotOverflowError. -/
theorem draws_loop_err (cfg : Cfg) (endSlot : Slot) :
    ∀ fuel cur res err, draws_loop cfg endSlot fuel cur res = some (.error err) →
      err = ConsensusError.SlotOverflowError := by
  intro fuel
  induction fuel with
  | zero =>
    intro cur res err h
    rw [draws_loop] at h
    split at h
    · cases h
    · cases h
  | succ f ih =>
    intro cur res err h
    rw [draws_loop] at h
    split at h
    · split at h
      · exact ih _ _ _ h
      · cases h
        rfl
    · cases h

/-- Main loop invariant of GetSelectionDraws: with valid threads and a u64
period bound, the loop succeeds and returns one correctly keyed entry per
slot of [cur, end), in strictly increasing order. -/
theorem draws_loop_ok (cfg : Cfg) (endSlot : Slot) (hT0 : 0 < cfg.thread_count)
    (hT : cfg.thread_count ≤ 256) (hend : endSlot.thread < cfg.thread_count)
    (hper : endSlot.period < U64_SUCC) :
    ∀ fuel cur res, cur.thread < cfg.thread_count →
      slotMu endSlot < slotMu cur + fuel →
      ∃ l, draws_loop cfg endSlot fuel cur res = some (.ok (res ++ l)) ∧
        l.length = endSlot.indexT cfg.thread_count - cur.indexT cfg.thread_count ∧
        List.Pairwise (fun a b => slotLtb a b = true) (l.map Prod.fst) ∧
        (∀ q ∈ l, slotLeb cur q.1 = true ∧ slotLtb q.1 endSlot = true ∧
          q.1.thread < cfg.thread_count ∧ q.2 = draws_key cfg q.1) ∧
        (∀ x : Slot, x.thread < cfg.thread_count → slotLeb cur x = true →
          slotLtb x endSlot = true → x ∈ l.map Prod.fst) := by
  intro fuel
  induction fuel with
  | zero =>
    intro cur res hthr hmu
    have hlt : slotLtb cur endSlot = false := by
      cases hq : slotLtb cur endSlot
      · rfl
      · exfalso
        have := slotMu_lt_of_slotLtb (by omega) (by omega) hq
        omega
    refine ⟨[], ?_, ?_, List.Pairwise.nil, by simp, ?_⟩
    · rw [draws_loop]
      simp [hlt]
    · have hle2 : slotLeb endSlot cur = true := slotLtb_total hlt
      have := indexT_le_of_slotLeb hend hthr hle2
      simp
      omega
    · intro x hx hxle hxlt
      exfalso
      have := slotLeb_slotLtb_trans hxle hxlt
      rw [hlt] at this
      exact Bool.false_ne_true this
  | succ f ih =>
    intro cur res hthr hmu
    cases hlt : slotLtb cur endSlot with
    | false =>
      refine ⟨[], ?_, ?_, List.Pairwise.nil, by simp, ?_⟩
      · rw [draws_loop]
        simp [hlt]
      · have hle2 : slotLeb endSlot cur = true := slotLtb_total hlt
        have := indexT_le_of_slotLeb hend hthr hle2
        simp
        omega
      · intro x hx hxle hxlt
        exfalso
        have := slotLeb_slotLtb_trans hxle hxlt
        rw [hlt] at this
        exact Bool.false_ne_true this
    | true =>
      obtain ⟨nxt, hnx⟩ := get_next_slot_ok_below hend hper hlt
      have hthr2 : nxt.thread < cfg.thread_count := get_next_slot_thread_lt hT0 hnx
      have hmu2 : slotMu endSlot < slotMu nxt + f := by
        have := get_next_slot_mu (by omega) hT hnx
        omega
      obtain ⟨l2, heq, hlen, hpw, hrange, hcomp⟩ :=
        ih nxt (res ++ [(cur, draws_key cfg cur)]) hthr2 hmu2
      have hgt : slotLtb cur nxt = true := get_next_slot_gt hnx
      refine ⟨(cur, draws_key cfg cur) :: l2, ?_, ?_, ?_, ?_, ?_⟩
      · rw [draws_loop]
        simp only [hlt, if_true, hnx]
        rw [heq, List.append_assoc]
        rfl
      · have hidx : nxt.indexT cfg.thread_count = cur.indexT cfg.thread_count + 1 :=
          get_next_slot_indexT hthr hnx
        have hlt2 : cur.indexT cfg.thread_count < endSlot.indexT cfg.thread_count :=
          indexT_lt_of_slotLtb hthr hend hlt
        simp only [List.length_cons, hlen, hidx]
        omega
      · simp only [List.map_cons]
        refine List.Pairwise.cons ?_ hpw
        intro b hb
        obtain ⟨q, hq, rfl⟩ := List.mem_map.mp hb
        exact slotLtb_slotLeb_trans hgt (hrange q hq).1
      · intro q hq
        rcases List.mem_cons.mp hq with rfl | hq
        · exact ⟨slotLeb_refl cur, hlt, hthr, rfl⟩
        · obtain ⟨h1, h2, h3, h4⟩ := hrange q hq
          exact ⟨slotLeb_of_slotLtb (slotLtb_slotLeb_trans hgt h1), h2, h3, h4⟩
      · intro x hx hxle hxlt
        by_cases hxc : x = cur
        · subst hxc
          simp
        · have hcx : slotLtb cur x = true := by
            rcases slotLeb_lt_or_eq hxle with hc | hc
            · exact hc
            · exact absurd hc.symm hxc
          have := get_next_slot_least hx hcx hnx
          simp only [List.map_cons, List.mem_cons]
          exact Or.inr (hcomp x hx this hxlt)

/-- C5: for every GetSelectionDraws command over a valid range [start, end)
(start at or below end, threads within [0,T), u64 period, u8 thread count),
the reply is Ok with exactly one (slot, key) entry per slot of the half-open
range, in strictly increasing slot order — hence end.index - start.index
entries; period-0 slots carry the genesis public key and all others carry the
drawn staker's key cfg.nodes[draw(slot)].0; and the only error the command can
ever reply with is SlotOverflowError, produced exactly when the slot iteration
overflows. -/
theorem c5_selection_draws (cfg : Cfg) (start endSlot : Slot)
    (hle : slotLeb start endSlot = true)
    (hs : start.thread < cfg.thread_count) (he : endSlot.thread < cfg.thread_count)
    (hT0 : 0 < cfg.thread_count) (hT : cfg.thread_count ≤ 256)
    (hper : endSlot.period < U64_SUCC) :
    (∃ l, getSelectionDraws cfg start endSlot = some (.ok l) ∧
      l.length = endSlot.indexT cfg.thread_count - start.indexT cfg.thread_count ∧
      List.Pairwise (fun a b => slotLtb a b = true) (l.map Prod.fst) ∧
      (∀ q ∈ l, slotLeb start q.1 = true ∧ slotLtb q.1 endSlot = true ∧
        q.2 = (if q.1.period = 0 then cfg.genesis_public_key
               else (cfg.nodes.getD (cfg.selectorDraw q.1) (0, 0)).1)) ∧
      (∀ x : Slot, x.thread < cfg.thread_count → slotLeb start x = true →
        slotLtb x endSlot = true → x ∈ l.map Prod.fst)) ∧
    (∀ s2 e2 err, getSelectionDraws cfg s2 e2 = some (.error err) →
      err = ConsensusError.SlotOverflowError) := by
  constructor
  · obtain ⟨l, heq, hlen, hpw, hrange, hcomp⟩ :=
      draws_loop_ok cfg endSlot hT0 hT he hper (slotMu endSlot + 2) start [] hs (by omega)
    refine ⟨l, by simpa using heq, hlen, hpw, ?_, hcomp⟩
    intro q hq
    obtain ⟨h1, h2, h3, h4⟩ := hrange q hq
    exact ⟨h1, h2, by rw [h4]; rfl⟩
  · intro s2 e2 err h
    exact draws_loop_err cfg e2 _ s2 [] err h

/-- C5 witness: draws over [(0,0), (1,1)) with two threads yield three
entries. -/
theorem c5_selection_draws_witness :
    ∃ l, getSelectionDraws cfgW ⟨0, 0⟩ ⟨1, 1⟩ = some (.ok l) ∧
      l.length = Slot.indexT ⟨1, 1⟩ cfgW.thread_count -
        Slot.indexT ⟨0, 0⟩ cfgW.thread_count := by
  obtain ⟨⟨l, h1, h2, -⟩, -⟩ :=
    c5_selection_draws cfgW ⟨0, 0⟩ ⟨1, 1⟩ (by decide) (by decide) (by decide)
      (by decide) (by decide) (by decide)
  exact ⟨l, h1, h2⟩

theorem procCands_map_fst (L : LedgerOps) : ∀ cands led,
    ((procCands L led cands).2.map (fun d => d.1)) = cands := by
  intro cands
  induction cands with
  | nil => intro led; rfl
  | cons c rest ih =>
    intro led
    simp only [procCands]
    cases h : L.tryApply led c.changes with
    | some led2 => simp [ih]
    | none => simp [ih]

theorem procCands_decisions (L : LedgerOps) : ∀ cands led,
    ∀ d ∈ (procCands L led cands).2,
      d.2.2 = (L.tryApply d.2.1 d.1.changes).isSome := by
  intro cands
  induction cands with
  | nil => intro led d hd; simp [procCands] at hd
  | cons c rest ih =>
    intro led d hd
    simp only [procCands] at hd
    cases h : L.tryApply led c.changes with
    | some led2 =>
      rw [h] at hd
      simp only [List.mem_cons] at hd
      rcases hd with rfl | hd
      · simp [h]
      · exact ih led2 d hd
    | none =>
      rw [h] at hd
      simp only [List.mem_cons] at hd
      rcases hd with rfl | hd
      · simp [h]
      · exact ih led d hd

theorem gbo_loop_ops (L : LedgerOps) (maxOps : Nat) (slot : Slot) :
    ∀ batches ops excl led,
      (gbo_loop L maxOps slot batches ops excl led).1 =
        ops ++ ((gbo_loop L maxOps slot batches ops excl led).2.1.map
          (fun r => included r.decisions)).flatten := by
  intro batches
  induction batches with
  | nil =>
    intro ops excl led
    simp only [gbo_loop]
    split <;> simp
  | cons cands rest ih =>
    intro ops excl led
    simp only [gbo_loop]
    split
    · simp
    · split
      · simp
      · simp [ih, List.append_assoc]

theorem gbo_loop_chainOk (L : LedgerOps) (maxOps : Nat) (slot : Slot) :
    ∀ batches ops excl led,
      chainOk excl (ops.map (fun o => o.oid))
        (gbo_loop L maxOps slot batches ops excl led).2.1 := by
  intro batches
  induction batches with
  | nil =>
    intro ops excl led
    simp only [gbo_loop]
    split <;> trivial
  | cons cands rest ih =>
    intro ops excl led
    simp only [gbo_loop]
    split
    · trivial
    · split
      · exact ⟨rfl, trivial⟩
      · refine ⟨rfl, ?_⟩
        have := ih (ops ++ included (procCands L
          (L.mergeAddrs led (cands.map (fun c => c.addrs)).flatten) cands).2)
          (excl ++ rejectedIds (procCands L
            (L.mergeAddrs led (cands.map (fun c => c.addrs)).flatten) cands).2)
          (procCands L (L.mergeAddrs led (cands.map (fun c => c.addrs)).flatten) cands).1
        rw [List.map_append] at this
        exact this

theorem gbo_loop_batches (L : LedgerOps) (maxOps : Nat) (slot : Slot) :
    ∀ batches ops excl led,
      ∃ consumed rest2, batches = consumed ++ rest2 ∧
        List.Forall₂ (fun (r : PoolBatchRec) (cs : List OpCand) =>
            r.decisions.map (fun d => d.1) = cs)
          (gbo_loop L maxOps slot batches ops excl led).2.1 consumed := by
  intro batches
  induction batches with
  | nil =>
    intro ops excl led
    refine ⟨[], [], rfl, ?_⟩
    simp only [gbo_loop]
    split <;> exact List.Forall₂.nil
  | cons cands rest ih =>
    intro ops excl led
    simp only [gbo_loop]
    split
    · exact ⟨[], cands :: rest, rfl, List.Forall₂.nil⟩
    · split
      · refine ⟨[cands], rest, rfl, ?_⟩
        exact List.Forall₂.cons (procCands_map_fst L cands _) List.Forall₂.nil
      · obtain ⟨consumed, rest2, hsplit, hfa⟩ := ih (ops ++ included (procCands L
          (L.mergeAddrs led (cands.map (fun c => c.addrs)).flatten) cands).2)
          (excl ++ rejectedIds (procCands L
            (L.mergeAddrs led (cands.map (fun c => c.addrs)).flatten) cands).2)
          (procCands L (L.mergeAddrs led (cands.map (fun c => c.addrs)).flatten) cands).1
        refine ⟨cands :: consumed, rest2, by rw [hsplit]; rfl, ?_⟩
        exact List.Forall₂.cons (procCands_map_fst L cands _) hfa

theorem gbo_loop_decisions (L : LedgerOps) (maxOps : Nat) (slot : Slot) :
    ∀ batches ops excl led,
      ∀ r ∈ (gbo_loop L maxOps slot batches ops excl led).2.1,
        ∀ d ∈ r.decisions, d.2.2 = (L.tryApply d.2.1 d.1.changes).isSome := by
  intro batches
  induction batches with
  | nil =>
    intro ops excl led r hr
    simp only [gbo_loop] at hr
    split at hr <;> simp at hr
  | cons cands rest ih =>
    intro ops excl led r hr
    simp only [gbo_loop] at hr
    split at hr
    · simp at hr
    · split at hr
      · simp only [List.mem_singleton] at hr
        subst hr
        exact procCands_decisions L cands _
      · simp only [List.mem_cons] at hr
        rcases hr with rfl | hr
        · exact procCands_decisions L cands _
        · exact ih _ _ _ r hr

/-- C6: in one block-creation call, candidates are processed in the order the
pool supplied them (each batch's decisions cover exactly the pool batch, in
order); an operation is included iff try_apply_changes accepted its changes on
the ledger snapshot at the moment of decision, a rejection only recording the
id; every pool request excludes exactly the rejected ids so far followed by
the already-included ids, starting from empty sets (so a fresh call — the next
slot — starts with an empty exclusion set); and the returned operation list is
the concatenation of the accepted candidates of each batch. -/
theorem c6_best_operations (cfg : Cfg) (L : LedgerOps) (cur_slot : Slot)
    (pool : List (List OpCand)) (hkey : cfg.current_node_index < cfg.nodes.length) :
    ∃ r, get_best_operations cfg L cur_slot pool = .ok r ∧
      chainOk [] [] r.2.1 ∧
      (∃ consumed rest2, pool = consumed ++ rest2 ∧
        List.Forall₂ (fun (rec : PoolBatchRec) (cs : List OpCand) =>
            rec.decisions.map (fun d => d.1) = cs) r.2.1 consumed) ∧
      (∀ rec ∈ r.2.1, ∀ d ∈ rec.decisions,
        d.2.2 = (L.tryApply d.2.1 d.1.changes).isSome) ∧
      r.1 = (r.2.1.map (fun rec => included rec.decisions)).flatten := by
  unfold get_best_operations
  rw [if_pos hkey]
  refine ⟨_, rfl, ?_, ?_, ?_, ?_⟩
  · exact gbo_loop_chainOk L cfg.max_operations_per_block cur_slot pool [] [] 0
  · exact gbo_loop_batches L cfg.max_operations_per_block cur_slot pool [] [] 0
  · exact gbo_loop_decisions L cfg.max_operations_per_block cur_slot pool [] [] 0
  · have := gbo_loop_ops L cfg.max_operations_per_block cur_slot pool [] [] 0
    simpa using this

/-- C6 witness: a creation slot with one batch and a rejected operation. -/
theorem c6_best_operations_witness :
    ∃ r, get_best_operations cfgW ledW ⟨1, 0⟩ poolW = .ok r ∧ chainOk [] [] r.2.1 := by
  obtain ⟨r, h1, h2, -, -, -⟩ := c6_best_operations cfgW ledW ⟨1, 0⟩ poolW (by decide)
  exact ⟨r, h1, h2⟩

end ConsensusWorker
